import Mathlib

/-!
Verification of the lunaphore_analysis frontend client against its
specification.  The TypeScript sources under `frontend/src` are shallowly
embedded as Lean functions: JavaScript values that matter to the claims are
modelled by `JsValue`, HTTP responses by `HttpResponse`, and each client
function is translated line by line from the source file it lives in.
-/

/-- A JavaScript runtime value, as far as the verified client code
inspects one: `undefined`, `null`, numbers, strings, arrays and plain
objects (an object is its ordered list of own enumerable properties). -/
inductive JsValue : Type where
  | undefined : JsValue
  | null : JsValue
  | num : ℚ → JsValue
  | str : String → JsValue
  | arr : List JsValue → JsValue
  | obj : List (String × JsValue) → JsValue

/-- JavaScript nullish test: `undefined` and `null` are nullish. -/
def jsNullish : JsValue → Bool
  | .undefined => true
  | .null => true
  | _ => false

/-- The JavaScript nullish-coalescing operator `a ?? b`. -/
def jsCoalesce (a b : JsValue) : JsValue :=
  if jsNullish a then b else a

/-- `Array.isArray(v)`. -/
def jsIsArray : JsValue → Bool
  | .arr _ => true
  | _ => false

/-- Property read on an ordered property list: the value of the first
binding of `k`, or `undefined` when `k` is absent. -/
def jsGet (m : List (String × JsValue)) (k : String) : JsValue :=
  match m.find? (fun p => p.1 == k) with
  | some p => p.2
  | none => .undefined

/-- Optional-chained member access `v?.[k]`: property lookup when `v` is an
object, `undefined` otherwise (nullish receivers and primitives alike
yield `undefined` for the properties the client reads). -/
def jsIndex (v : JsValue) (k : String) : JsValue :=
  match v with
  | .obj m => jsGet m k
  | _ => .undefined

/-- `s` occurs as a contiguous substring of `t`. -/
def SubstrOf (s t : String) : Prop :=
  ∃ a b : String, t = a ++ (s ++ b)

/-- An HTTP response as `fetch` resolves it, specialised to the fields
`ApiClient.request` reads: `ok`, `status`, the body as text, and the value
`response.json()` would resolve to (`α` is the decoded payload type). -/
structure HttpResponse (α : Type) : Type where
  ok : Bool
  status : Nat
  text : String
  json : α

/-- Outcome of one `ApiClient.request` call: a synchronously thrown
`Error` message, an empty `undefined` resolution (HTTP 204), or the
JSON-decoded body. -/
inductive ReqResult (α : Type) : Type where
  | err : String → ReqResult α
  | noContent : ReqResult α
  | parsed : α → ReqResult α
deriving DecidableEq

/-- `ApiClient.request` from `frontend/src/api/client.ts` (lines 16-32):
a non-ok response throws `Error("API request failed (<status>): <detail>")`
with the body text as detail; an ok 204 resolves to `undefined`; any other
ok response resolves to the parsed JSON body. -/
def ApiClient.request {α : Type} (r : HttpResponse α) : ReqResult α :=
  if !r.ok then
    .err ("API request failed (" ++ toString r.status ++ "): " ++ r.text)
  else if r.status == 204 then
    .noContent
  else
    .parsed r.json

/-- `BackgroundPreprocessResponse` from `frontend/src/api/types.ts`: the
payload resolved by a successful background-correction submission. -/
structure BackgroundPreprocessResponse : Type where
  task_id : String
  job_id : Nat
  status : String
deriving DecidableEq

/-- The `submitBackground` mutation flow in
`frontend/src/routes/PreprocessView.tsx` (lines 43-49) as a function of the
submission's HTTP response and the `jobId` state before the call: only the
mutation's `onSuccess` handler writes `jobId`, and it runs exactly when
`ApiClient.request` resolves with a parsed payload. -/
def submitFlowJobId (r : HttpResponse BackgroundPreprocessResponse)
    (jobId : Option Nat) : Option Nat :=
  match ApiClient.request r with
  | .parsed resp => some resp.job_id
  | _ => jobId

/-- The `enabled` option of the `backgroundStatus` polling query
(`PreprocessView.tsx` line 55): `jobId != null`. -/
def backgroundStatusEnabled (jobId : Option Nat) : Bool :=
  jobId.isSome

/-- `BackgroundPreprocessStatus` from `frontend/src/api/types.ts`: the job
record returned by `getBackgroundJob` polls, specialised to the fields the
views inspect (`none` stands for an absent or null optional field). -/
structure BackgroundPreprocessStatus : Type where
  id : Nat
  method : String
  output_name : String
  status : String
  progress : ℚ
  result_zarr_path : Option String
  qc_metrics : Option (List (String × JsValue))
  error_message : Option String

/-- `IngestStatusModel` from `frontend/src/api/types.ts`, specialised to
the fields the ingest view inspects. -/
structure IngestStatusModel : Type where
  id : Nat
  status : String
  source_path : String
  zarr_path : Option String
  error_message : Option String

/-- Default polling interval of `usePollingQuery`
(`frontend/src/hooks/usePollingQuery.ts`): 2500 ms, overridden by an
explicit `refetchInterval` option when the caller passes one. -/
def usePollingQueryInterval : Nat := 2500

/-- Value returned by a `refetchInterval` callback: `false` (stop polling)
or the next delay in milliseconds. -/
inductive Refetch : Type where
  | stop : Refetch
  | after : Nat → Refetch
deriving DecidableEq

/-- The `refetchInterval` callback of the `backgroundStatus` query
(`PreprocessView.tsx` lines 56-57):
`data?.status && ["completed", "failed"].includes(data.status) ? false : 2500`.
The JS condition is truthy exactly when `data` is present, its `status` is
a non-empty string, and that status is in the list. -/
def backgroundStatusRefetch (data : Option BackgroundPreprocessStatus) : Refetch :=
  let cond : Bool :=
    match data with
    | none => false
    | some d => d.status != "" && ["completed", "failed"].contains d.status
  if cond then .stop else .after 2500

/-- The `refetchInterval` callback of the `ingestStatus` query
(`IngestFlowView.tsx` lines 60-61), identical in form to the background
one but reading an `IngestStatusModel`. -/
def ingestStatusRefetch (data : Option IngestStatusModel) : Refetch :=
  let cond : Bool :=
    match data with
    | none => false
    | some d => d.status != "" && ["completed", "failed"].contains d.status
  if cond then .stop else .after 2500

/-- Truthiness of an optional string field such as `error_message`
(`string | null | undefined`): truthy exactly for a non-empty string. -/
def jsTruthyStr : Option String → Bool
  | none => false
  | some s => s != ""

/-- The error rendering guard in `PreprocessView.tsx` (line 170):
`backgroundStatus.data.error_message && <p className="error">…</p>` —
the error paragraph is rendered exactly when `error_message` is truthy. -/
def shouldRenderError (s : BackgroundPreprocessStatus) : Bool :=
  jsTruthyStr s.error_message

/-- JavaScript `String.prototype.trim` on a character list: whitespace is
removed from both ends. -/
def jsTrimChars (cs : List Char) : List Char :=
  ((cs.dropWhile Char.isWhitespace).reverse.dropWhile Char.isWhitespace).reverse

/-- JavaScript `s.split(",")` on a character list: the (never empty) list
of comma-separated segments, empty segments kept. -/
def splitOnComma (cs : List Char) : List (List Char) :=
  match cs with
  | [] => [[]]
  | ',' :: rest => [] :: splitOnComma rest
  | c :: rest =>
    match splitOnComma rest with
    | head :: tail => (c :: head) :: tail
    | [] => [[c]]

/-- Numeric value of a digit string (most significant digit first). -/
def digitsToNat (ds : List Char) : Nat :=
  ds.foldl (fun a c => 10 * a + (c.toNat - 48)) 0

/-- Value of the decimal literal with digit string of value `mantissa`, a
decimal point `fracLen` digits from its right end, and exponent
`(if expNeg then -expVal else expVal)`:
`mantissa * 10 ^ (± expVal) / 10 ^ fracLen`. -/
def ratOfDecimal (mantissa fracLen : Nat) (expNeg : Bool) (expVal : Nat) : ℚ :=
  if expNeg then mkRat mantissa (10 ^ (fracLen + expVal))
  else mkRat (mantissa * 10 ^ expVal) (10 ^ fracLen)

/-- Exponent digits of a decimal literal; anything trailing them makes
the literal invalid (`NaN`). -/
def parseExpDigits (cs : List Char) (mantissa fracLen : Nat) (expNeg : Bool) :
    Option ℚ :=
  let ds := cs.takeWhile Char.isDigit
  if ds.isEmpty || !(cs.drop ds.length).isEmpty then none
  else some (ratOfDecimal mantissa fracLen expNeg (digitsToNat ds))

/-- Optional `e`/`E` exponent part following a mantissa. -/
def parseExpPart (cs : List Char) (mantissa fracLen : Nat) : Option ℚ :=
  match cs with
  | [] => some (ratOfDecimal mantissa fracLen false 0)
  | 'e' :: '+' :: rest => parseExpDigits rest mantissa fracLen false
  | 'e' :: '-' :: rest => parseExpDigits rest mantissa fracLen true
  | 'e' :: rest => parseExpDigits rest mantissa fracLen false
  | 'E' :: '+' :: rest => parseExpDigits rest mantissa fracLen false
  | 'E' :: '-' :: rest => parseExpDigits rest mantissa fracLen true
  | 'E' :: rest => parseExpDigits rest mantissa fracLen false
  | _ => none

/-- Unsigned decimal literal `digits[.digits][exponent]`; at least one
digit must be present on some side of the dot. -/
def parseDecCore (cs : List Char) : Option ℚ :=
  let intDs := cs.takeWhile Char.isDigit
  let rest1 := cs.drop intDs.length
  match rest1 with
  | '.' :: rest2 =>
    let fracDs := rest2.takeWhile Char.isDigit
    let rest3 := rest2.drop fracDs.length
    if intDs.isEmpty && fracDs.isEmpty then none
    else parseExpPart rest3 (digitsToNat (intDs ++ fracDs)) fracDs.length
  | _ =>
    if intDs.isEmpty then none
    else parseExpPart rest1 (digitsToNat intDs) 0

/-- The JavaScript `Number(string)` conversion on a character list, with
`none` standing for `NaN`: the input is trimmed, an empty remainder
converts to `0`, and an optionally signed finite decimal literal converts
to its value.  (Hexadecimal/binary/octal literals and `Infinity`, which
no verified flow produces, are not modelled.) -/
def jsNumberChars (cs : List Char) : Option ℚ :=
  match jsTrimChars cs with
  | [] => some 0
  | '+' :: rest => parseDecCore rest
  | '-' :: rest => (parseDecCore rest).map (fun q => -q)
  | t => parseDecCore t

/-- `Number(s)` on a string. -/
def jsNumber (s : String) : Option ℚ :=
  jsNumberChars s.data

/-- `toNumber` from `PreprocessView.tsx` (lines 16-19):
`Number(value)`, with `NaN` mapped to `undefined`; since `jsNumber`
already encodes `NaN` as `none`, the two coincide. -/
def toNumber (value : String) : Option ℚ :=
  jsNumber value

/-- JavaScript object property assignment `m[k] = v` on an ordered
property list: an existing key keeps its position and gets the new value,
a fresh key is appended. -/
def recSet (m : List (String × JsValue)) (k : String) (v : JsValue) :
    List (String × JsValue) :=
  match m with
  | [] => [(k, v)]
  | (k2, v2) :: rest =>
    if k2 == k then (k2, v) :: rest else (k2, v2) :: recSet rest k v

/-- `onParameterChange` from `PreprocessView.tsx` (lines 79-81):
`setParameters((prev) => ({ ...prev, [name]: toNumber(value) ?? value }))`. -/
def onParameterChange (parameters : List (String × JsValue)) (name : String)
    (value : String) : List (String × JsValue) :=
  recSet parameters name
    (match toNumber value with
     | some n => .num n
     | none => .str value)

/-- The `channels` field built by `onSubmit` in `PreprocessView.tsx`
(lines 95-100): an empty input string is falsy, so the field is left
`undefined`; otherwise the input is split on commas, each entry trimmed
and converted with `Number`, and `NaN` results dropped
(`.filter((value) => !Number.isNaN(value))`, here the `reduceOption` on
the `none`-encoded `NaN`s). -/
def parseChannels (channels : String) : Option (List ℚ) :=
  if channels == "" then none
  else some (((splitOnComma channels.data).map
    (fun value => jsNumberChars (jsTrimChars value))).reduceOption)

/-- Channel list as the spec words it: the entries of the comma-split
input, trimmed and converted to numbers, non-numeric entries dropped,
order preserved.  Stated from the spec's words, to be compared with the
map/filter pipeline the code runs. -/
def specChannelList (channels : String) : List ℚ :=
  (splitOnComma channels.data).filterMap (fun entry => jsNumberChars (jsTrimChars entry))

/-- `BackgroundMethodParameter` from `frontend/src/api/types.ts`
(`none` stands for an absent optional field). -/
structure BackgroundMethodParameter : Type where
  name : String
  label : String
  type : String
  default : Option JsValue
  minimum : Option ℚ
  maximum : Option ℚ
  choices : Option (List JsValue)
  description : Option String

/-- `BackgroundMethodConfig` from `frontend/src/api/types.ts`. -/
structure BackgroundMethodConfig : Type where
  name : String
  label : String
  description : Option String
  parameters : List BackgroundMethodParameter

/-- `selectedMethodConfig` from `PreprocessView.tsx` (lines 61-63):
`methods.find((method) => method.name === selectedMethod)`; a `null`
selection matches nothing. -/
def selectedMethodConfig (methods : List BackgroundMethodConfig)
    (selectedMethod : Option String) : Option BackgroundMethodConfig :=
  match selectedMethod with
  | none => none
  | some sel => methods.find? (fun m => m.name == sel)

/-- The defaults effect of `PreprocessView.tsx` (lines 65-77): with no
selected method the parameter mapping is reset to `{}`; otherwise each
declared parameter whose `default !== undefined` is written into a fresh
object in declaration order. -/
def methodDefaults : Option BackgroundMethodConfig → List (String × JsValue)
  | none => []
  | some cfg =>
    cfg.parameters.foldl
      (fun defaults p =>
        match p.default with
        | some d => recSet defaults p.name d
        | none => defaults)
      []

/-- A parsed CSV record as PapaParse hands it to `parsePanelCsv`
(`header: true`): each field may be absent. -/
structure RawPanelRow : Type where
  channel : Option String
  target : Option String

/-- A row kept by `parsePanelCsv`. -/
structure PanelRow : Type where
  channel : String
  target : String
deriving DecidableEq

/-- `parsePanelCsv`'s completion callback body from `IngestFlowView.tsx`
(lines 25-35): each raw record's `channel` and `target` default to `""`,
and the record is pushed exactly when `channel` is truthy (non-empty). -/
def parsePanelCsv : List RawPanelRow → List PanelRow
  | [] => []
  | raw :: rest =>
    let channel := raw.channel.getD ""
    let target := raw.target.getD ""
    if channel != "" then ⟨channel, target⟩ :: parsePanelCsv rest
    else parsePanelCsv rest

/-- The statistic names of the QC metrics table
(`PreprocessView.tsx` lines 186-191). -/
def qcTableMetrics : List String := ["mean", "std", "min", "max"]

/-- One row of the QC metrics table (`PreprocessView.tsx` lines 192-197):
for a statistic, the cells read from `qcMetrics.raw`,
`qcMetrics.background` and `qcMetrics.corrected` via optional-chained
indexing. -/
def qcTableRow (qcMetrics : List (String × JsValue)) (metric : String) :
    List JsValue :=
  [jsIndex (jsGet qcMetrics "raw") metric,
   jsIndex (jsGet qcMetrics "background") metric,
   jsIndex (jsGet qcMetrics "corrected") metric]

/-- The QC metrics table body (`PreprocessView.tsx` lines 186-198): one
row per statistic in `qcTableMetrics`. -/
def qcTable (qcMetrics : List (String × JsValue)) :
    List (String × List JsValue) :=
  qcTableMetrics.map (fun metric => (metric, qcTableRow qcMetrics metric))

/-- The per-channel rendering guard (`PreprocessView.tsx` line 201):
`Array.isArray((qcMetrics.per_channel as unknown) ?? [])`. -/
def perChannelRendered (qcMetrics : List (String × JsValue)) : Bool :=
  jsIsArray (jsCoalesce (jsGet qcMetrics "per_channel") (.arr []))

/-- Scope-major view of the whole-image statistics the spec says the
client consumes: for each of the scopes `raw`, `background`, `corrected`,
the four statistics `mean`, `std`, `min`, `max`.  Stated from the spec's
words, to be compared with the table the code builds. -/
def specScopeStats (qcMetrics : List (String × JsValue)) :
    List (String × List JsValue) :=
  ["raw", "background", "corrected"].map (fun scope =>
    (scope, qcTableMetrics.map (fun metric => jsIndex (jsGet qcMetrics scope) metric)))

/-- Modelled from the spec: job status of the Job Ledger & State Machine
(spec §3/§4.2); the backend engine is not under `src/` (only placeholder
READMEs), so the ledger is modelled from the spec's words. -/
inductive JobStatus : Type where
  | queued : JobStatus
  | running : JobStatus
  | completed : JobStatus
  | failed : JobStatus
deriving DecidableEq

/-- Modelled from the spec: a ledger Job record (spec §3), restricted to
the fields the polling claims observe. -/
structure Job : Type where
  status : JobStatus
  progress : ℚ
  error_message : Option String

/-- Modelled from the spec: the four mutating ledger operations of §4.2. -/
inductive LedgerOp : Type where
  | markRunning : LedgerOp
  | updateProgress : ℚ → LedgerOp
  | complete : LedgerOp
  | fail : String → LedgerOp

/-- Modelled from the spec: `create(request)` allocates a job with
status `queued` and progress `0.0` (spec §4.2). -/
def createJob : Job :=
  { status := .queued, progress := 0, error_message := none }

/-- Modelled from the spec: the ledger's transition contract (§4.2, §5).
`markRunning` moves `queued` to `running` and is an idempotent no-op on
`running`; `updateProgress f` requires a `running` job, `f` at least the
stored progress and at most `1` (progress is a fraction in `[0,1]`, §3);
`complete` moves a `running` job to `completed` with progress `1.0`
(a completed job's progress is exactly `1.0`, §8); `fail` moves a
`queued` or `running` job to `failed` recording the message.  Violating
calls fail with `InvalidTransitionError` (`none`) and leave the job
unchanged. -/
def applyOp (j : Job) : LedgerOp → Option Job
  | .markRunning =>
    match j.status with
    | .queued => some { j with status := .running }
    | .running => some j
    | _ => none
  | .updateProgress f =>
    if j.status = .running ∧ j.progress ≤ f ∧ f ≤ 1 then
      some { j with progress := f }
    else none
  | .complete =>
    match j.status with
    | .running => some { j with status := .completed, progress := 1 }
    | _ => none
  | .fail msg =>
    match j.status with
    | .queued => some { j with status := .failed, error_message := some msg }
    | .running => some { j with status := .failed, error_message := some msg }
    | _ => none

/-- Modelled from the spec: the sequence of ledger states a poller can
observe while a list of contract calls is applied: each successful call
appends the new state, a rejected call leaves the ledger unchanged. -/
def ledgerTrace (j : Job) : List LedgerOp → List Job
  | [] => [j]
  | op :: rest =>
    match applyOp j op with
    | some j2 => j :: ledgerTrace j2 rest
    | none => ledgerTrace j rest

/-- The job invariant maintained by the ledger contract: progress lies in
`[0,1]` and a completed job has progress exactly `1`. -/
def jobInv (j : Job) : Prop :=
  0 ≤ j.progress ∧ j.progress ≤ 1 ∧ (j.status = .completed → j.progress = 1)

/-- Claim C8: for every HTTP response received by `ApiClient.request`, a
non-ok response throws an `Error` whose message contains the numeric
status code and the response body text; an ok 204 response resolves to
`undefined`; any other ok response resolves to the JSON-parsed body. -/
theorem apiRequest_outcome {α : Type} (r : HttpResponse α) :
    (r.ok = false ∧ ∃ msg, ApiClient.request r = .err msg ∧
      SubstrOf (toString r.status) msg ∧ SubstrOf r.text msg) ∨
    (r.ok = true ∧ r.status = 204 ∧ ApiClient.request r = .noContent) ∨
    (r.ok = true ∧ r.status ≠ 204 ∧ ApiClient.request r = .parsed r.json) := by
  rcases r with ⟨ok, status, text, json⟩
  cases ok with
  | false =>
    left
    refine ⟨rfl, "API request failed (" ++ toString status ++ "): " ++ text,
      by simp [ApiClient.request], ?_, ?_⟩
    · exact ⟨"API request failed (", "): " ++ text,
        by rw [String.append_assoc, String.append_assoc]⟩
    · exact ⟨"API request failed (" ++ toString status ++ "): ", "",
        by rw [String.append_empty]⟩
  | true =>
    by_cases h : status = 204
    · exact Or.inr (Or.inl ⟨rfl, h, by simp [ApiClient.request, h]⟩)
    · exact Or.inr (Or.inr ⟨rfl, h, by simp [ApiClient.request, h]⟩)

/-- Claim C1: for a background-correction submission whose HTTP response
is not ok, the client call throws synchronously with the server's status
and detail, the mutation's success path never runs (`jobId` stays null),
and the background-status polling query is never enabled — a failed
validation tracks no job. -/
theorem submitFailure_creates_no_job (r : HttpResponse BackgroundPreprocessResponse)
    (h : r.ok = false) :
    (∃ msg, ApiClient.request r = .err msg ∧
      SubstrOf (toString r.status) msg ∧ SubstrOf r.text msg) ∧
    submitFlowJobId r none = none ∧
    backgroundStatusEnabled (submitFlowJobId r none) = false := by
  rcases r with ⟨ok, status, text, json⟩
  subst h
  refine ⟨⟨"API request failed (" ++ toString status ++ "): " ++ text,
      by simp [ApiClient.request], ?_, ?_⟩, ?_, ?_⟩
  · exact ⟨"API request failed (", "): " ++ text,
      by rw [String.append_assoc, String.append_assoc]⟩
  · exact ⟨"API request failed (" ++ toString status ++ "): ", "",
      by rw [String.append_empty]⟩
  · simp [submitFlowJobId, ApiClient.request]
  · simp [submitFlowJobId, ApiClient.request, backgroundStatusEnabled]

/-- Witness for C1: a concrete 422 validation failure throws with the
status and detail in the message, leaves `jobId` null and the polling
query disabled. -/
theorem submitFailure_creates_no_job_witness :
    (∃ msg, ApiClient.request
        (⟨false, 422, "percentile below minimum", ⟨"", 0, ""⟩⟩ :
          HttpResponse BackgroundPreprocessResponse) = .err msg ∧
      SubstrOf (toString (422 : Nat)) msg ∧
      SubstrOf "percentile below minimum" msg) ∧
    submitFlowJobId ⟨false, 422, "percentile below minimum", ⟨"", 0, ""⟩⟩ none = none ∧
    backgroundStatusEnabled
      (submitFlowJobId ⟨false, 422, "percentile below minimum", ⟨"", 0, ""⟩⟩ none) = false :=
  submitFailure_creates_no_job ⟨false, 422, "percentile below minimum", ⟨"", 0, ""⟩⟩ rfl

/-- Claim C2: for every polled job the refetch-interval callback returns
`false` (stop) exactly when the last observed status is `completed` or
`failed`; for any other observation (including `queued`, `running`, or no
data yet) it returns 2500 ms, the fixed interval also used as
`usePollingQuery`'s default. -/
theorem pollingRefetch_stops_iff_terminal (data : Option BackgroundPreprocessStatus)
    (idata : Option IngestStatusModel) :
    (backgroundStatusRefetch data = .stop ↔
      ∃ d, data = some d ∧ (d.status = "completed" ∨ d.status = "failed")) ∧
    (backgroundStatusRefetch data = .stop ∨ backgroundStatusRefetch data = .after 2500) ∧
    (ingestStatusRefetch idata = .stop ↔
      ∃ d, idata = some d ∧ (d.status = "completed" ∨ d.status = "failed")) ∧
    (ingestStatusRefetch idata = .stop ∨ ingestStatusRefetch idata = .after 2500) ∧
    usePollingQueryInterval = 2500 := by
  refine ⟨?_, ?_, ?_, ?_, rfl⟩
  · cases data with
    | none => simp [backgroundStatusRefetch]
    | some d =>
      by_cases hc : d.status = "completed"
      · simp [backgroundStatusRefetch, hc]
      · by_cases hf : d.status = "failed"
        · simp [backgroundStatusRefetch, hf]
        · simp [backgroundStatusRefetch, hc, hf]
  · cases data with
    | none => simp [backgroundStatusRefetch]
    | some d =>
      by_cases h : (d.status != "" && ["completed", "failed"].contains d.status) = true
      · exact Or.inl (by simp only [backgroundStatusRefetch]; rw [if_pos h])
      · exact Or.inr (by simp only [backgroundStatusRefetch]; rw [if_neg h])
  · cases idata with
    | none => simp [ingestStatusRefetch]
    | some d =>
      by_cases hc : d.status = "completed"
      · simp [ingestStatusRefetch, hc]
      · by_cases hf : d.status = "failed"
        · simp [ingestStatusRefetch, hf]
        · simp [ingestStatusRefetch, hc, hf]
  · cases idata with
    | none => simp [ingestStatusRefetch]
    | some d =>
      by_cases h : (d.status != "" && ["completed", "failed"].contains d.status) = true
      · exact Or.inl (by simp only [ingestStatusRefetch]; rw [if_pos h])
      · exact Or.inr (by simp only [ingestStatusRefetch]; rw [if_neg h])

/-- Claim C6: an execution failure reaches the submitter only through the
polled job record: a successful submission response resolves to the
submission payload (which carries no execution error), and the client
renders an error exactly when the polled record carries a non-empty
`error_message`. -/
theorem executionError_only_via_polls (r : HttpResponse BackgroundPreprocessResponse)
    (s : BackgroundPreprocessStatus) (hok : r.ok = true) (h204 : r.status ≠ 204) :
    ApiClient.request r = .parsed r.json ∧
    (shouldRenderError s = true ↔ ∃ m, s.error_message = some m ∧ m ≠ "") := by
  constructor
  · simp [ApiClient.request, hok, h204]
  · cases he : s.error_message with
    | none => simp [shouldRenderError, jsTruthyStr, he]
    | some m => simp [shouldRenderError, jsTruthyStr, he]

/-- Counterexample for C5: the input "1,1" yields the channel list
`[1, 1]`, which contains a duplicate index — the code does not
deduplicate, so the submitted value is not an ordered set. -/
theorem parseChannels_duplicates_cex :
    parseChannels "1,1" = some [(1 : ℚ), 1] ∧ ¬ List.Nodup [(1 : ℚ), 1] := by
  constructor
  · decide
  · decide

/-- Claim C5 (amended): the `channels` field is absent iff the input is
empty; otherwise it is the list obtained by splitting on commas, trimming,
converting each entry with `Number` and dropping non-numeric entries, with
order and duplicates preserved. -/
theorem parseChannels_split_trim_spec (channels : String) :
    parseChannels channels =
      if channels = "" then none else some (specChannelList channels) := by
  unfold parseChannels specChannelList
  by_cases h : channels = ""
  · simp [h]
  · simp only [h, beq_iff_eq, if_neg h, if_false]
    rw [List.reduceOption, List.filterMap_map]
    rfl

/-- Claim C9: `onParameterChange` stores `Number(value)` when the
conversion is not `NaN` and the raw string otherwise; in particular the
empty string stores the number 0 (because `Number("")` is 0) rather than
removing the parameter. -/
theorem onParameterChange_number_or_raw (parameters : List (String × JsValue))
    (name value : String) :
    ((∃ n, jsNumber value = some n ∧
        onParameterChange parameters name value = recSet parameters name (.num n)) ∨
      (jsNumber value = none ∧
        onParameterChange parameters name value = recSet parameters name (.str value))) ∧
    onParameterChange parameters name "" = recSet parameters name (.num 0) := by
  constructor
  · cases h : jsNumber value with
    | none => exact Or.inr ⟨rfl, by simp [onParameterChange, toNumber, jsNumber] at h ⊢; rw [h]⟩
    | some n => exact Or.inl ⟨n, rfl, by simp [onParameterChange, toNumber, jsNumber] at h ⊢; rw [h]⟩
  · rfl

/-- Claim C10: every row kept by `parsePanelCsv` has a non-empty channel
(rows with a missing or empty channel are excluded), a missing target
becomes the empty string, and the surviving rows keep their relative
order — the output is exactly the order-preserving filter-map of the
input. -/
theorem parsePanelCsv_keeps_nonempty_channels (rows : List RawPanelRow) :
    parsePanelCsv rows =
      (rows.filter (fun raw => raw.channel.getD "" != "")).map
        (fun raw => ⟨raw.channel.getD "", raw.target.getD ""⟩) ∧
    (parsePanelCsv rows).all (fun row => row.channel != "") = true := by
  induction rows with
  | nil => exact ⟨rfl, rfl⟩
  | cons raw rest ih =>
    by_cases h : (raw.channel.getD "" != "") = true
    · refine ⟨?_, ?_⟩
      · simp [parsePanelCsv, h, List.filter_cons, ih.1]
      · simp [parsePanelCsv, h, ih.2]
    · have h2 : raw.channel.getD "" = "" := by simpa using h
      refine ⟨?_, ?_⟩
      · simp [parsePanelCsv, h, List.filter_cons, h2, ih.1]
      · simp [parsePanelCsv, h, ih.2]

/-- Counterexample for C7: with `per_channel` null or absent, the guard
`Array.isArray(per_channel ?? [])` still renders the per-channel block,
although `per_channel` is not an array. -/
theorem perChannel_nullish_rendered_cex :
    perChannelRendered [("per_channel", JsValue.null)] = true ∧
    jsIsArray (jsGet [("per_channel", JsValue.null)] "per_channel") = false ∧
    perChannelRendered [] = true ∧
    jsIsArray (jsGet ([] : List (String × JsValue)) "per_channel") = false := by
  refine ⟨rfl, rfl, rfl, rfl⟩

/-- Claim C7 (amended): the whole-image statistics consumed are exactly
`mean`, `std`, `min`, `max` read from the scopes `raw`, `background` and
`corrected` (the rendered metric-major table is the transpose of the
spec's scope-major grid), and the per-channel block is rendered iff
`per_channel` is an array or is nullish (absent defaults to `[]`). -/
theorem qcStats_consumed_spec (qc : List (String × JsValue)) :
    (qcTable qc).map Prod.fst = qcTableMetrics ∧
    (qcTable qc).map Prod.snd = ((specScopeStats qc).map Prod.snd).transpose ∧
    (perChannelRendered qc = true ↔
      (jsIsArray (jsGet qc "per_channel") = true ∨
        jsNullish (jsGet qc "per_channel") = true)) := by
  refine ⟨rfl, ?_, ?_⟩
  · rfl
  · cases v : jsGet qc "per_channel" <;>
      simp [perChannelRendered, jsCoalesce, jsNullish, jsIsArray, v]

/-- Assigning a key no existing binding uses appends it. -/
lemma recSet_of_keys_ne (m : List (String × JsValue)) (k : String) (v : JsValue)
    (h : ∀ p ∈ m, p.1 ≠ k) : recSet m k v = m ++ [(k, v)] := by
  induction m with
  | nil => rfl
  | cons p rest ih =>
    rcases p with ⟨k2, v2⟩
    have hk2 : k2 ≠ k := h (k2, v2) (by simp)
    simp only [recSet, List.cons_append]
    rw [if_neg (by simpa using hk2)]
    rw [ih (fun q hq => h q (List.mem_cons_of_mem _ hq))]

/-- Folding the defaults effect over parameters with pairwise distinct
names appends one binding per defaulted parameter, in order. -/
lemma methodDefaults_foldl (ps : List BackgroundMethodParameter)
    (acc : List (String × JsValue))
    (hdisj : ∀ q ∈ acc, ∀ p ∈ ps, q.1 ≠ p.name)
    (hnodup : (ps.map (fun p => p.name)).Nodup) :
    ps.foldl
      (fun defaults p =>
        match p.default with
        | some d => recSet defaults p.name d
        | none => defaults) acc
      = acc ++ ps.filterMap (fun p => p.default.map (fun d => (p.name, d))) := by
  induction ps generalizing acc with
  | nil => simp
  | cons p rest ih =>
    simp only [List.map_cons, List.nodup_cons] at hnodup
    obtain ⟨hp, hrest⟩ := hnodup
    simp only [List.foldl_cons, List.filterMap_cons]
    cases hd : p.default with
    | none =>
      dsimp only
      rw [ih acc (fun q hq p2 hp2 => hdisj q hq p2 (List.mem_cons_of_mem _ hp2)) hrest]
      simp
    | some d =>
      dsimp only
      rw [recSet_of_keys_ne acc p.name d
        (fun q hq => hdisj q hq p (List.mem_cons_self _ _))]
      rw [ih (acc ++ [(p.name, d)]) ?_ hrest]
      · simp
      · intro q hq p2 hp2
        rcases List.mem_append.mp hq with hq1 | hq2
        · exact hdisj q hq1 p2 (List.mem_cons_of_mem _ hp2)
        · have : q = (p.name, d) := by simpa using hq2
          subst this
          intro hcontra
          simp only at hcontra
          refine hp ?_
          rw [hcontra]
          exact List.mem_map.mpr ⟨p2, hp2, rfl⟩

/-- Claim C4: for a selected method whose parameter names are distinct,
the initial parameter mapping holds exactly the declared parameters that
define a default, each bound to that default, in declaration order;
parameters without a default are absent, and deselecting the method
resets the mapping to empty. -/
theorem methodDefaults_declared_defaults (cfg : BackgroundMethodConfig)
    (h : (cfg.parameters.map (fun p => p.name)).Nodup) :
    methodDefaults (some cfg) =
      cfg.parameters.filterMap (fun p => p.default.map (fun d => (p.name, d))) ∧
    methodDefaults none = [] := by
  refine ⟨?_, rfl⟩
  unfold methodDefaults
  simpa using methodDefaults_foldl cfg.parameters [] (by simp) h

/-- Witness for C4: a two-parameter method with one default yields the
one-entry mapping. -/
theorem methodDefaults_declared_defaults_witness :
    methodDefaults (some ⟨"percentile_background", "Percentile background", none,
      [⟨"percentile", "Percentile", "number", some (.num 10), some 0, some 100, none, none⟩,
       ⟨"halo", "Halo width", "number", none, none, none, none, none⟩]⟩) =
      [("percentile", JsValue.num 10)] ∧
    methodDefaults none = [] := by
  have h := methodDefaults_declared_defaults
    ⟨"percentile_background", "Percentile background", none,
      [⟨"percentile", "Percentile", "number", some (.num 10), some 0, some 100, none, none⟩,
       ⟨"halo", "Halo width", "number", none, none, none, none, none⟩]⟩
    (by simp)
  exact ⟨h.1.trans (by rfl), h.2⟩

/-- Witness for C6: a concrete successful submission resolves to its
payload, and a concrete failed job record with a non-empty
`error_message` renders the error. -/
theorem executionError_only_via_polls_witness :
    ApiClient.request
      (⟨true, 200, "", ⟨"task-1", 7, "queued"⟩⟩ :
        HttpResponse BackgroundPreprocessResponse) = .parsed ⟨"task-1", 7, "queued"⟩ ∧
    (shouldRenderError
        ⟨7, "rolling_ball", "out", "failed", 0, none, none,
          some "NaN at tile (3,4) channel 2"⟩ = true ↔
      ∃ m, (some "NaN at tile (3,4) channel 2" : Option String) = some m ∧ m ≠ "") :=
  executionError_only_via_polls
    ⟨true, 200, "", ⟨"task-1", 7, "queued"⟩⟩
    ⟨7, "rolling_ball", "out", "failed", 0, none, none,
      some "NaN at tile (3,4) channel 2"⟩
    rfl (by decide)

/-- Each accepted ledger operation preserves the job invariant and never
decreases progress. -/
lemma applyOp_invariant {j j2 : Job} {op : LedgerOp}
    (h : jobInv j) (happ : applyOp j op = some j2) :
    jobInv j2 ∧ j.progress ≤ j2.progress := by
  obtain ⟨h0, h1, hc⟩ := h
  cases op with
  | markRunning =>
    cases hs : j.status with
    | queued =>
      rw [applyOp, hs] at happ
      simp only [Option.some.injEq] at happ
      subst happ
      exact ⟨⟨h0, h1, by simp⟩, le_refl _⟩
    | running =>
      rw [applyOp, hs] at happ
      simp only [Option.some.injEq] at happ
      subst happ
      exact ⟨⟨h0, h1, hc⟩, le_refl _⟩
    | completed => rw [applyOp, hs] at happ; simp at happ
    | failed => rw [applyOp, hs] at happ; simp at happ
  | updateProgress f =>
    rw [applyOp] at happ
    split at happ
    · rename_i hcond
      simp only [Option.some.injEq] at happ
      subst happ
      obtain ⟨hrun, hle, hle1⟩ := hcond
      refine ⟨⟨le_trans h0 hle, hle1, ?_⟩, hle⟩
      intro hcc
      simp only at hcc
      rw [hrun] at hcc
      cases hcc
    · simp at happ
  | complete =>
    cases hs : j.status with
    | queued => rw [applyOp, hs] at happ; simp at happ
    | running =>
      rw [applyOp, hs] at happ
      simp only [Option.some.injEq] at happ
      subst happ
      refine ⟨⟨?_, le_refl _, fun _ => rfl⟩, h1⟩
      show (0 : ℚ) ≤ 1
      norm_num
    | completed => rw [applyOp, hs] at happ; simp at happ
    | failed => rw [applyOp, hs] at happ; simp at happ
  | fail msg =>
    cases hs : j.status with
    | queued =>
      rw [applyOp, hs] at happ
      simp only [Option.some.injEq] at happ
      subst happ
      exact ⟨⟨h0, h1, by simp⟩, le_refl _⟩
    | running =>
      rw [applyOp, hs] at happ
      simp only [Option.some.injEq] at happ
      subst happ
      exact ⟨⟨h0, h1, by simp⟩, le_refl _⟩
    | completed => rw [applyOp, hs] at happ; simp at happ
    | failed => rw [applyOp, hs] at happ; simp at happ

/-- Every state observable from an invariant-satisfying job satisfies the
invariant and has progress at least the starting progress. -/
lemma ledgerTrace_bound : ∀ (ops : List LedgerOp) (j : Job), jobInv j →
    ∀ x ∈ ledgerTrace j ops, jobInv x ∧ j.progress ≤ x.progress := by
  intro ops
  induction ops with
  | nil =>
    intro j h x hx
    rw [ledgerTrace] at hx
    simp only [List.mem_singleton] at hx
    subst hx
    exact ⟨h, le_refl _⟩
  | cons op rest ih =>
    intro j h x hx
    rw [ledgerTrace] at hx
    cases happ : applyOp j op with
    | none =>
      rw [happ] at hx
      exact ih j h x hx
    | some j2 =>
      rw [happ] at hx
      rcases List.mem_cons.mp hx with hx1 | hx2
      · subst hx1
        exact ⟨h, le_refl _⟩
      · obtain ⟨hinv2, hle2⟩ := applyOp_invariant h happ
        obtain ⟨hxinv, hxle⟩ := ih j2 hinv2 x hx2
        exact ⟨hxinv, le_trans hle2 hxle⟩

/-- Progress is non-decreasing along any observable ledger trace. -/
lemma ledgerTrace_pairwise : ∀ (ops : List LedgerOp) (j : Job), jobInv j →
    List.Pairwise (fun a b => a.progress ≤ b.progress) (ledgerTrace j ops) := by
  intro ops
  induction ops with
  | nil =>
    intro j h
    rw [ledgerTrace]
    exact List.pairwise_singleton _ _
  | cons op rest ih =>
    intro j h
    rw [ledgerTrace]
    cases happ : applyOp j op with
    | none => exact ih j h
    | some j2 =>
      obtain ⟨hinv2, hle2⟩ := applyOp_invariant h happ
      refine List.Pairwise.cons ?_ (ih j2 hinv2)
      intro x hx
      exact le_trans hle2 (ledgerTrace_bound rest j2 hinv2 x hx).2

/-- Claim C3: along every sequence of ledger-contract calls on a freshly
created job, the progress values a poller observes are monotonically
non-decreasing, stay within `[0, 1]`, and equal exactly 1 whenever the
observed status is `completed`. -/
theorem ledger_progress_monotone_bounded (ops : List LedgerOp) :
    List.Pairwise (fun a b => a.progress ≤ b.progress) (ledgerTrace createJob ops) ∧
    (ledgerTrace createJob ops).all
      (fun j => decide (0 ≤ j.progress) && decide (j.progress ≤ 1) &&
        (j.status != .completed || decide (j.progress = 1))) = true := by
  have hinv : jobInv createJob :=
    ⟨le_refl 0, by show (0 : ℚ) ≤ 1; norm_num, by intro h; simp [createJob] at h⟩
  constructor
  · exact ledgerTrace_pairwise ops createJob hinv
  · rw [List.all_eq_true]
    intro j hj
    obtain ⟨⟨h0, h1, hc⟩, _⟩ := ledgerTrace_bound ops createJob hinv j hj
    simp only [Bool.and_eq_true, decide_eq_true_eq]
    refine ⟨⟨h0, h1⟩, ?_⟩
    by_cases hs : j.status = JobStatus.completed
    · simp [hs, hc hs]
    · simp [hs]
